import Mathlib

/-!
Shallow embedding of the `ds-rust` key-value store (`src/main.rs`).

The store is a single SQLite table with schema `(key TEXT PRIMARY KEY, value TEXT)`.
The table contents are modelled as a list of rows in storage (rowid) order, the
database file as a catalog of named tables, and each `KVLite` operation as the
effect of the single SQL statement it executes:

* `set`      — `INSERT OR REPLACE INTO T VALUES (?, ?)`: SQLite deletes every row
  whose primary key conflicts and inserts the new row with a fresh maximal rowid,
  hence filter-then-append.
* `del`      — `DELETE FROM T WHERE key = ?`: removes all matching rows, succeeds
  whether or not a row matched.
* `get`      — `SELECT value FROM T WHERE key = ?` through `fetch_one`, which
  yields the `RowNotFound` error when no row matches.
* `contains` — the same query through `fetch_optional`, mapped to a boolean.
* `keys` / `values` / `records` — `SELECT key | value | key,value FROM T` with no
  ORDER BY: the projections of the row list in storage order.
* `new`      — looks the table name up in the `sqlite_master` catalog and issues
  `CREATE TABLE` only when it is absent (`create_store_table`); a bare
  `CREATE TABLE` fails when the table already exists.

Each statement executes atomically (an SQLite statement that fails leaves the
database unchanged); `runStmt` exposes that by taking a flag telling whether the
statement execution fails at the I/O level.
-/

namespace KVLite

/-- A row of the store table: a (key, value) pair of TEXT columns. -/
abbrev Row := String × String

/-- The store table: its rows, listed in storage (rowid) order. -/
abbrev Table := List Row

/-- The sqlx errors the store surfaces: `RowNotFound` from `fetch_one` on an
empty result set, the database error for a `CREATE TABLE` on an existing table,
and a generic database error for a statement failing at the I/O level. -/
inductive SqlxError where
  | rowNotFound
  | tableAlreadyExists (name : String)
  | databaseError
  deriving DecidableEq, Repr

/-- `KVLite::set`: `INSERT OR REPLACE INTO T VALUES (?, ?)`. The conflicting
rows (same primary key) are deleted and the new row is appended. -/
def set (t : Table) (key value : String) : Table :=
  t.filter (fun r => r.1 != key) ++ [(key, value)]

/-- `KVLite::del`: `DELETE FROM T WHERE key = ?`. -/
def del (t : Table) (key : String) : Table :=
  t.filter (fun r => r.1 != key)

/-- `KVLite::get`: `SELECT value FROM T WHERE key = ?` via `fetch_one`, which
returns the first matching row or the `RowNotFound` error. -/
def get (t : Table) (key : String) : Except SqlxError String :=
  match t.find? (fun r => r.1 == key) with
  | some r => .ok r.2
  | none => .error .rowNotFound

/-- `KVLite::contains`: the same query via `fetch_optional`; `Some` row maps to
`true`, no row maps to `false`. -/
def contains (t : Table) (key : String) : Bool :=
  (t.find? (fun r => r.1 == key)).isSome

/-- `KVLite::keys`: `SELECT key FROM T`. -/
def keys (t : Table) : List String :=
  t.map Prod.fst

/-- `KVLite::values`: `SELECT value FROM T`. -/
def values (t : Table) : List String :=
  t.map Prod.snd

/-- `KVLite::records`: `SELECT key,value FROM T`. -/
def records (t : Table) : Table :=
  t

/-- The contents of the database file: the catalog of named tables. -/
structure Database where
  tables : List (String × Table)
  deriving DecidableEq, Repr

/-- `KVLite::create_store_table`: issues
`CREATE TABLE name (key TEXT PRIMARY KEY, value TEXT)`, which creates an empty
table and fails when a table of that name already exists. -/
def create_store_table (db : Database) (kv_name : String) : Except SqlxError Database :=
  if kv_name ∈ db.tables.map Prod.fst then
    .error (.tableAlreadyExists kv_name)
  else
    .ok ⟨db.tables ++ [(kv_name, [])]⟩

/-- `KVLite::new` (table-initialisation part): queries the catalog
(`SELECT name FROM sqlite_master WHERE type="table" AND name = ?`) and calls
`create_store_table` only when the table is absent. -/
def new (db : Database) (kv_name : String) : Except SqlxError Database :=
  if kv_name ∈ db.tables.map Prod.fst then
    .ok db
  else
    create_store_table db kv_name

/-- One store operation, as dispatched by the CLI. -/
inductive Op where
  | set (key value : String)
  | del (key : String)
  | get (key : String)
  | contains (key : String)
  | keys
  | values
  | records
  deriving DecidableEq, Repr

/-- The result payload of a store operation. -/
inductive Output where
  | done
  | value (s : String)
  | flag (b : Bool)
  | strings (l : List String)
  | rows (t : Table)
  deriving DecidableEq, Repr

/-- Running one operation against the table: the statement result together with
the table contents afterwards. -/
def run (op : Op) (t : Table) : Except SqlxError Output × Table :=
  match op with
  | .set k v => (.ok .done, set t k v)
  | .del k => (.ok .done, del t k)
  | .get k => ((get t k).map Output.value, t)
  | .contains k => (.ok (.flag (contains t k)), t)
  | .keys => (.ok (.strings (keys t)), t)
  | .values => (.ok (.strings (values t)), t)
  | .records => (.ok (.rows (records t)), t)

/-- Running one operation whose single SQL statement may fail at the I/O level
(`fail = true`): an SQLite statement is atomic, so a failed statement returns a
database error and leaves the table unchanged. -/
def runStmt (op : Op) (fail : Bool) (t : Table) : Except SqlxError Output × Table :=
  if fail then (.error .databaseError, t) else run op t

/-- The operations that issue only a SELECT statement. -/
def isReadOnly : Op → Bool
  | .set _ _ => false
  | .del _ => false
  | _ => true

/-- A mutating operation, for reasoning about histories of writes. -/
inductive Mut where
  | set (key value : String)
  | del (key : String)
  deriving DecidableEq, Repr

/-- The effect of one mutating operation on the table. -/
def apply_mut (t : Table) : Mut → Table
  | .set k v => set t k v
  | .del k => del t k

/-- The table contents after executing a sequence of mutating operations. -/
def exec (ms : List Mut) (t : Table) : Table :=
  ms.foldl apply_mut t

/-- The mutation `m` neither deletes key `k` nor sets key `k`. -/
def untouched (k : String) (m : Mut) : Prop :=
  m ≠ Mut.del k ∧ ∀ v, m ≠ Mut.set k v

/-- Spec-side reading of the enumeration claim: the record (k, v) was inserted
by some `set k v` and no later operation deletes `k`. -/
def insertedNotDeleted (ms : List Mut) (k v : String) : Prop :=
  ∃ l r, ms = l ++ Mut.set k v :: r ∧ ∀ m ∈ r, m ≠ Mut.del k

/-- Amended reading: the record (k, v) was inserted by some `set k v` and no
later operation deletes `k` or sets `k` again. -/
def liveRecord (ms : List Mut) (k v : String) : Prop :=
  ∃ l r, ms = l ++ Mut.set k v :: r ∧ ∀ m ∈ r, untouched k m

/-- Key `k` was never set in the history `ms`. -/
def neverSet (ms : List Mut) (k : String) : Prop :=
  ∀ v, Mut.set k v ∉ ms

/-- Key `k` was deleted at some point of the history `ms` and not set again
afterwards. -/
def deletedNotReset (ms : List Mut) (k : String) : Prop :=
  ∃ l r, ms = l ++ Mut.del k :: r ∧ ∀ v, Mut.set k v ∉ r

/-! Basic lemmas about the single-statement operations. -/

lemma mem_set (t : Table) (k v k' v' : String) :
    (k, v) ∈ set t k' v' ↔ ((k, v) ∈ t ∧ k ≠ k') ∨ (k = k' ∧ v = v') := by
  simp [set, List.mem_filter, Prod.ext_iff]

lemma mem_del (t : Table) (k v k' : String) :
    (k, v) ∈ del t k' ↔ (k, v) ∈ t ∧ k ≠ k' := by
  simp [del, List.mem_filter]

lemma find?_key_filter (t : Table) (k : String) :
    (t.filter (fun r => r.1 != k)).find? (fun r => r.1 == k) = none := by
  rw [List.find?_eq_none]
  intro x hx
  rw [List.mem_filter] at hx
  simpa using (by simpa using hx.2 : x.1 ≠ k)

lemma find?_append_of_none {α : Type} (l₁ l₂ : List α) (p : α → Bool)
    (h : l₁.find? p = none) : (l₁ ++ l₂).find? p = l₂.find? p := by
  induction l₁ with
  | nil => simp
  | cons a l ih =>
    cases hpa : p a with
    | true => simp [List.find?_cons, hpa] at h
    | false =>
      rw [List.find?_cons, hpa] at h
      simpa [List.find?_cons, hpa] using ih h

lemma get_set_self (t : Table) (k v : String) : get (set t k v) k = .ok v := by
  unfold get set
  rw [find?_append_of_none _ _ _ (find?_key_filter t k)]
  simp [List.find?_cons]

lemma contains_set_self (t : Table) (k v : String) : contains (set t k v) k = true := by
  unfold contains set
  rw [find?_append_of_none _ _ _ (find?_key_filter t k)]
  simp [List.find?_cons]

lemma contains_del_self (t : Table) (k : String) : contains (del t k) k = false := by
  unfold contains del
  rw [find?_key_filter]
  rfl

lemma del_del (t : Table) (k : String) : del (del t k) k = del t k := by
  unfold del
  rw [List.filter_filter]
  exact List.filter_congr (fun x _ => by cases h : (x.1 != k) <;> simp [h])

lemma find?_key_filter_other (t : Table) (k k' : String) (h : k' ≠ k) :
    (t.filter (fun r => r.1 != k)).find? (fun r => r.1 == k') =
      t.find? (fun r => r.1 == k') := by
  induction t with
  | nil => rfl
  | cons a l ih =>
    by_cases ha : a.1 = k
    · have h1 : (a.1 != k) = false := by simp [ha]
      have h2 : (a.1 == k') = false := by
        simp [ha]
        exact Ne.symm h
      simp [List.filter_cons, h1, List.find?_cons, h2, ih]
    · have h1 : (a.1 != k) = true := by simp [ha]
      cases h2 : (a.1 == k') with
      | true => simp [List.filter_cons, h1, List.find?_cons, h2]
      | false => simp [List.filter_cons, h1, List.find?_cons, h2, ih]

lemma get_del_other (t : Table) (k k' : String) (h : k' ≠ k) :
    get (del t k) k' = get t k' := by
  unfold get del
  rw [find?_key_filter_other t k k' h]

/-! Lemmas about histories of mutating operations. -/

lemma untouched_set_iff (k k' v' : String) : untouched k (Mut.set k' v') ↔ k' ≠ k := by
  constructor
  · intro hu he
    exact hu.2 v' (by rw [he])
  · intro h
    refine ⟨by simp, ?_⟩
    intro v hv
    injection hv with h1 h2
    exact h h1

lemma untouched_del_iff (k k' : String) : untouched k (Mut.del k') ↔ k' ≠ k := by
  constructor
  · intro hu he
    exact hu.1 (by rw [he])
  · intro h
    refine ⟨?_, ?_⟩
    · intro hv
      injection hv with h1
      exact h h1
    · intro v hv
      exact Mut.noConfusion hv

lemma mem_apply_mut (t : Table) (m : Mut) (k v : String) :
    (k, v) ∈ apply_mut t m ↔ m = Mut.set k v ∨ ((k, v) ∈ t ∧ untouched k m) := by
  cases m with
  | set k' v' =>
    simp only [apply_mut]
    rw [mem_set, untouched_set_iff]
    constructor
    · rintro (⟨hm, hk⟩ | ⟨rfl, rfl⟩)
      · exact Or.inr ⟨hm, Ne.symm hk⟩
      · exact Or.inl rfl
    · rintro (he | ⟨hm, hk⟩)
      · injection he with h1 h2
        exact Or.inr ⟨h1.symm, h2.symm⟩
      · exact Or.inl ⟨hm, Ne.symm hk⟩
  | del k' =>
    simp only [apply_mut]
    rw [mem_del, untouched_del_iff]
    constructor
    · rintro ⟨hm, hk⟩
      exact Or.inr ⟨hm, Ne.symm hk⟩
    · rintro (he | ⟨hm, hk⟩)
      · exact Mut.noConfusion he
      · exact ⟨hm, Ne.symm hk⟩

lemma liveRecord_nil (k v : String) : ¬ liveRecord [] k v := by
  rintro ⟨l, r, heq, -⟩
  simp at heq

lemma liveRecord_cons (m : Mut) (ms : List Mut) (k v : String) :
    liveRecord (m :: ms) k v ↔
      (m = Mut.set k v ∧ ∀ x ∈ ms, untouched k x) ∨ liveRecord ms k v := by
  constructor
  · rintro ⟨l, r, heq, hr⟩
    cases l with
    | nil =>
      rw [List.nil_append] at heq
      injection heq with h1 h2
      exact Or.inl ⟨h1, by rw [h2]; exact hr⟩
    | cons a l' =>
      rw [List.cons_append] at heq
      injection heq with h1 h2
      exact Or.inr ⟨l', r, h2, hr⟩
  · rintro (⟨rfl, hms⟩ | ⟨l, r, rfl, hr⟩)
    · exact ⟨[], ms, rfl, hms⟩
    · exact ⟨m :: l, r, rfl, hr⟩

lemma mem_exec (ms : List Mut) (t : Table) (k v : String) :
    (k, v) ∈ exec ms t ↔
      liveRecord ms k v ∨ ((k, v) ∈ t ∧ ∀ m ∈ ms, untouched k m) := by
  induction ms generalizing t with
  | nil => simp [exec, liveRecord_nil]
  | cons m ms ih =>
    have hstep : exec (m :: ms) t = exec ms (apply_mut t m) := rfl
    rw [hstep, ih, liveRecord_cons]
    constructor
    · rintro (hlive | ⟨hmem, hms⟩)
      · exact Or.inl (Or.inr hlive)
      · rcases (mem_apply_mut t m k v).1 hmem with rfl | ⟨ht, hm⟩
        · exact Or.inl (Or.inl ⟨rfl, hms⟩)
        · refine Or.inr ⟨ht, ?_⟩
          intro x hx
          rcases List.mem_cons.1 hx with rfl | hx'
          · exact hm
          · exact hms x hx'
    · rintro ((⟨rfl, hms⟩ | hlive) | ⟨ht, hall⟩)
      · exact Or.inr ⟨(mem_apply_mut t _ k v).2 (Or.inl rfl), hms⟩
      · exact Or.inl hlive
      · refine Or.inr ⟨(mem_apply_mut t m k v).2 (Or.inr ⟨ht, hall m (by simp)⟩), ?_⟩
        intro x hx
        exact hall x (List.mem_cons_of_mem m hx)

lemma not_live_of_neverSet (ms : List Mut) (k : String) (h : neverSet ms k) :
    ∀ v, ¬ liveRecord ms k v := by
  rintro v ⟨l, r, heq, -⟩
  apply h v
  rw [heq]
  exact List.mem_append.2 (Or.inr (List.mem_cons_self _ _))

lemma not_live_of_deletedNotReset (ms : List Mut) (k : String)
    (h : deletedNotReset ms k) : ∀ v, ¬ liveRecord ms k v := by
  obtain ⟨l, r, rfl, hr⟩ := h
  rintro v ⟨l', r', heq, hr'⟩
  rcases List.append_eq_append_iff.1 heq with ⟨a, ha1, ha2⟩ | ⟨c, hc1, hc2⟩
  · cases a with
    | nil =>
      rw [List.nil_append] at ha2
      injection ha2 with h1 h2
      exact Mut.noConfusion h1
    | cons x a' =>
      rw [List.cons_append] at ha2
      injection ha2 with h1 h2
      apply hr v
      rw [h2]
      exact List.mem_append.2 (Or.inr (List.mem_cons_self _ _))
  · cases c with
    | nil =>
      rw [List.nil_append] at hc2
      injection hc2 with h1 h2
      exact Mut.noConfusion h1
    | cons x c' =>
      rw [List.cons_append] at hc2
      injection hc2 with h1 h2
      have hdel : Mut.del k ∈ r' := by
        rw [h2]
        exact List.mem_append.2 (Or.inr (List.mem_cons_self _ _))
      exact (hr' _ hdel).1 rfl

lemma not_mem_exec_of_dead (ms : List Mut) (k : String)
    (h : neverSet ms k ∨ deletedNotReset ms k) (v : String) :
    (k, v) ∉ exec ms [] := by
  rw [mem_exec]
  rintro (hlive | ⟨hmem, -⟩)
  · rcases h with h | h
    · exact not_live_of_neverSet ms k h v hlive
    · exact not_live_of_deletedNotReset ms k h v hlive
  · simp at hmem

lemma find?_exec_dead (ms : List Mut) (k : String)
    (h : neverSet ms k ∨ deletedNotReset ms k) :
    (exec ms []).find? (fun r => r.1 == k) = none := by
  rw [List.find?_eq_none]
  intro x hx hpx
  have hk : x.1 = k := by simpa using hpx
  have hxe : (k, x.2) = x := by
    rw [← hk]
  exact not_mem_exec_of_dead ms k h x.2 (hxe ▸ hx)

/-! Lemmas about the primary-key invariant and table initialisation. -/

lemma nodup_keys_set (t : Table) (k v : String) (h : (keys t).Nodup) :
    (keys (set t k v)).Nodup := by
  unfold keys set
  rw [List.map_append]
  refine List.Nodup.append ?_ ?_ ?_
  · exact List.Nodup.sublist ((List.filter_sublist t).map Prod.fst) h
  · simp
  · intro a ha hb
    have hb' : a = k := by simpa using hb
    subst hb'
    obtain ⟨r, hr, hrk⟩ := List.mem_map.1 ha
    rw [List.mem_filter] at hr
    exact absurd hrk (by simpa using hr.2)

lemma nodup_keys_del (t : Table) (k : String) (h : (keys t).Nodup) :
    (keys (del t k)).Nodup := by
  unfold keys del
  exact List.Nodup.sublist ((List.filter_sublist t).map Prod.fst) h

lemma new_spec (db : Database) (name : String) :
    ∃ db₁, new db name = .ok db₁ ∧ new db₁ name = .ok db₁ ∧
      (∀ e, e ∈ db.tables → e ∈ db₁.tables) ∧
      name ∈ db₁.tables.map Prod.fst ∧
      (db₁.tables.map Prod.fst = db.tables.map Prod.fst ∨
        db₁.tables.map Prod.fst = db.tables.map Prod.fst ++ [name]) := by
  by_cases hmem : name ∈ db.tables.map Prod.fst
  · exact ⟨db, by simp [new, hmem], by simp [new, hmem], fun e he => he, hmem, Or.inl rfl⟩
  · refine ⟨⟨db.tables ++ [(name, [])]⟩, ?_, ?_, ?_, ?_, ?_⟩
    · simp [new, create_store_table, hmem]
    · simp [new]
    · intro e he
      exact List.mem_append.2 (Or.inl he)
    · simp
    · exact Or.inr (by simp)

/-! The claims. -/

/-- Claim C1: for every key k and value v, after a successful `set k v` on an
open store, `get k` returns v and `contains k` returns true. -/
theorem claim_C1_set_then_get_contains (t : Table) (k v : String) :
    (run (Op.set k v) t).1 = .ok .done ∧
    get (set t k v) k = .ok v ∧
    contains (set t k v) k = true :=
  ⟨rfl, get_set_self t k v, contains_set_self t k v⟩

/-- Claim C2: for every key that has never been set, or has been deleted and
not re-set, `get` fails with the row-not-found error while `contains` succeeds
with the result false. -/
theorem claim_C2_absent_key (ms : List Mut) (k : String)
    (h : neverSet ms k ∨ deletedNotReset ms k) :
    get (exec ms []) k = .error .rowNotFound ∧
    (run (Op.contains k) (exec ms [])).1 = .ok (.flag false) := by
  have hf := find?_exec_dead ms k h
  have hc : contains (exec ms []) k = false := by
    unfold contains
    rw [hf]
    rfl
  constructor
  · unfold get
    rw [hf]
  · simp [run, hc]

/-- Witness for claim C2 at the history set a x, del a. -/
theorem claim_C2_witness :
    (neverSet [Mut.set "a" "x", Mut.del "a"] "a" ∨
      deletedNotReset [Mut.set "a" "x", Mut.del "a"] "a") ∧
    (get (exec [Mut.set "a" "x", Mut.del "a"] []) "a" = .error .rowNotFound ∧
      (run (Op.contains "a") (exec [Mut.set "a" "x", Mut.del "a"] [])).1 =
        .ok (.flag false)) :=
  ⟨Or.inr ⟨[Mut.set "a" "x"], [], rfl, by simp⟩,
    claim_C2_absent_key _ _ (Or.inr ⟨[Mut.set "a" "x"], [], rfl, by simp⟩)⟩

/-- Claim C3: `set` is an upsert with last-write-wins semantics: after
`set k v₁` then `set k v₂`, the second write succeeds and `get k` returns v₂. -/
theorem claim_C3_last_write_wins (t : Table) (k v₁ v₂ : String) :
    (run (Op.set k v₂) (set t k v₁)).1 = .ok .done ∧
    get (set (set t k v₁) k v₂) k = .ok v₂ :=
  ⟨rfl, get_set_self (set t k v₁) k v₂⟩

/-- Claim C4: `del k` succeeds whether or not k is present, afterwards
`contains k` is false, a repeated `del k` is a no-op that does not fail, and
every other key is unchanged and retrievable. -/
theorem claim_C4_delete (t : Table) (k k' v' : String) (h : k' ≠ k) :
    (run (Op.del k) t).1 = .ok .done ∧
    contains (del t k) k = false ∧
    (run (Op.del k) (del t k)).1 = .ok .done ∧
    del (del t k) k = del t k ∧
    ((k', v') ∈ del t k ↔ (k', v') ∈ t) ∧
    get (del t k) k' = get t k' := by
  refine ⟨rfl, contains_del_self t k, rfl, del_del t k, ?_, get_del_other t k k' h⟩
  rw [mem_del]
  exact ⟨fun hm => hm.1, fun hm => ⟨hm, h⟩⟩

/-- Witness for claim C4 on a two-row table. -/
theorem claim_C4_witness :
    ("b" : String) ≠ "a" ∧
    ((run (Op.del "a") ([("a", "x"), ("b", "y")] : Table)).1 = .ok .done ∧
      contains (del ([("a", "x"), ("b", "y")] : Table) "a") "a" = false ∧
      (run (Op.del "a") (del ([("a", "x"), ("b", "y")] : Table) "a")).1 = .ok .done ∧
      del (del ([("a", "x"), ("b", "y")] : Table) "a") "a" =
        del ([("a", "x"), ("b", "y")] : Table) "a" ∧
      (("b", "y") ∈ del ([("a", "x"), ("b", "y")] : Table) "a" ↔
        ("b", "y") ∈ ([("a", "x"), ("b", "y")] : Table)) ∧
      get (del ([("a", "x"), ("b", "y")] : Table) "a") "b" =
        get ([("a", "x"), ("b", "y")] : Table) "b") :=
  ⟨by decide, claim_C4_delete [("a", "x"), ("b", "y")] "a" "b" "y" (by decide)⟩

/-- Counterexample to claim C5 as stated: after set a x then set a y, the
record (a, x) was inserted and never deleted by a delete operation, yet
`records` does not contain it. -/
theorem claim_C5_counterexample :
    insertedNotDeleted [Mut.set "a" "x", Mut.set "a" "y"] "a" "x" ∧
    ("a", "x") ∉ records (exec [Mut.set "a" "x", Mut.set "a" "y"] []) := by
  constructor
  · refine ⟨[], [Mut.set "a" "y"], rfl, ?_⟩
    intro m hm
    have hm' : m = Mut.set "a" "y" := by simpa using hm
    subst hm'
    simp
  · decide

/-- Claim C5 amended: after any history of set and delete operations starting
from the empty table, `records` holds exactly the records inserted by a `set`
that is followed by no later delete of the key and no later set of the key,
`keys` and `values` hold exactly the projections of those records, and each
enumeration is empty on the empty table. -/
theorem claim_C5_enumerations (ms : List Mut) (k v : String) :
    ((k, v) ∈ records (exec ms []) ↔ liveRecord ms k v) ∧
    (k ∈ keys (exec ms []) ↔ ∃ v', liveRecord ms k v') ∧
    (v ∈ values (exec ms []) ↔ ∃ k', liveRecord ms k' v) ∧
    keys ([] : Table) = [] ∧ values ([] : Table) = [] ∧ records ([] : Table) = [] := by
  have hrec : ∀ k v, (k, v) ∈ exec ms [] ↔ liveRecord ms k v := by
    intro k v
    rw [mem_exec]
    simp
  refine ⟨hrec k v, ?_, ?_, rfl, rfl, rfl⟩
  · unfold keys
    constructor
    · intro hk
      obtain ⟨r, hr, hrk⟩ := List.mem_map.1 hk
      have he : (k, r.2) = r := by rw [← hrk]
      exact ⟨r.2, (hrec k r.2).1 (he ▸ hr)⟩
    · rintro ⟨v', hv'⟩
      exact List.mem_map.2 ⟨(k, v'), (hrec k v').2 hv', rfl⟩
  · unfold values
    constructor
    · intro hv
      obtain ⟨r, hr, hrv⟩ := List.mem_map.1 hv
      have he : (r.1, v) = r := by rw [← hrv]
      exact ⟨r.1, (hrec r.1 v).1 (he ▸ hr)⟩
    · rintro ⟨k', hk'⟩
      exact List.mem_map.2 ⟨(k', v), (hrec k' v).2 hk', rfl⟩

/-- Claim C6: opening the store is idempotent with respect to the table: `new`
never errors, a second `new` on its result is the identity, every existing
table with its rows is kept, and the catalog gains at most the one requested
table name. -/
theorem claim_C6_open_idempotent (db : Database) (name : String) :
    ∃ db₁, new db name = .ok db₁ ∧ new db₁ name = .ok db₁ ∧
      (∀ e, e ∈ db.tables → e ∈ db₁.tables) ∧
      name ∈ db₁.tables.map Prod.fst ∧
      (db₁.tables.map Prod.fst = db.tables.map Prod.fst ∨
        db₁.tables.map Prod.fst = db.tables.map Prod.fst ++ [name]) :=
  new_spec db name

/-- Witness for claim C6 on a database holding one unrelated table. -/
theorem claim_C6_witness :
    ∃ db₁, new ⟨[("other", [("k", "v")])]⟩ "store" = .ok db₁ ∧
      new db₁ "store" = .ok db₁ ∧
      (∀ e, e ∈ (Database.mk [("other", [("k", "v")])]).tables → e ∈ db₁.tables) ∧
      "store" ∈ db₁.tables.map Prod.fst ∧
      (db₁.tables.map Prod.fst = (Database.mk [("other", [("k", "v")])]).tables.map Prod.fst ∨
        db₁.tables.map Prod.fst =
          (Database.mk [("other", [("k", "v")])]).tables.map Prod.fst ++ ["store"]) :=
  claim_C6_open_idempotent ⟨[("other", [("k", "v")])]⟩ "store"

/-- Claim C7: every operation preserves the at-most-one-row-per-key invariant,
and `new` guarantees that the table exists in the catalog before any read or
write runs. -/
theorem claim_C7_invariants :
    (∀ (op : Op) (t : Table), (keys t).Nodup → (keys (run op t).2).Nodup) ∧
    (∀ (db : Database) (name : String) (db₁ : Database),
        new db name = .ok db₁ → name ∈ db₁.tables.map Prod.fst) := by
  constructor
  · intro op t h
    cases op with
    | set k v => exact nodup_keys_set t k v h
    | del k => exact nodup_keys_del t k h
    | get k => exact h
    | contains k => exact h
    | keys => exact h
    | values => exact h
    | records => exact h
  · intro db name db₁ hnew
    obtain ⟨db₂, h1, -, -, hmem, -⟩ := new_spec db name
    rw [hnew] at h1
    injection h1 with h1
    rw [h1]
    exact hmem

/-- Witness for claim C7: a concrete set preserves key uniqueness, and a
concrete `new` puts the table in the catalog. -/
theorem claim_C7_witness :
    ((keys ([("a", "q"), ("b", "r")] : Table)).Nodup ∧
      (keys (run (Op.set "a" "x") ([("a", "q"), ("b", "r")] : Table)).2).Nodup) ∧
    (new ⟨[]⟩ "store" = .ok ⟨[("store", [])]⟩ ∧
      "store" ∈ (Database.mk [("store", [])]).tables.map Prod.fst) :=
  ⟨⟨by decide, claim_C7_invariants.1 (Op.set "a" "x") [("a", "q"), ("b", "r")] (by decide)⟩,
    ⟨rfl, claim_C7_invariants.2 ⟨[]⟩ "store" ⟨[("store", [])]⟩ rfl⟩⟩

/-- Claim C8: every operation is one atomic statement: whenever it returns an
error, the stored records are exactly what they were before. -/
theorem claim_C8_atomic (op : Op) (fail : Bool) (t : Table) (e : SqlxError)
    (h : (runStmt op fail t).1 = .error e) : (runStmt op fail t).2 = t := by
  cases fail with
  | true => rfl
  | false =>
    cases op with
    | set k v => exact absurd h (by simp [runStmt, run])
    | del k => exact absurd h (by simp [runStmt, run])
    | get k => rfl
    | contains k => rfl
    | keys => rfl
    | values => rfl
    | records => rfl

/-- Witness for claim C8: a failing get and a failing set both leave the table
unchanged. -/
theorem claim_C8_witness :
    ((runStmt (Op.get "k") false ([] : Table)).1 = .error .rowNotFound ∧
      (runStmt (Op.get "k") false ([] : Table)).2 = []) ∧
    ((runStmt (Op.set "k" "v") true ([("a", "x")] : Table)).1 = .error .databaseError ∧
      (runStmt (Op.set "k" "v") true ([("a", "x")] : Table)).2 = [("a", "x")]) :=
  ⟨⟨rfl, claim_C8_atomic (Op.get "k") false [] .rowNotFound rfl⟩,
    ⟨rfl, claim_C8_atomic (Op.set "k" "v") true [("a", "x")] .databaseError rfl⟩⟩

/-- Claim C9: the read-only operations get, contains, keys, values and records
never modify the store, whatever their result. -/
theorem claim_C9_read_only_frame (op : Op) (fail : Bool) (t : Table)
    (h : isReadOnly op = true) : (runStmt op fail t).2 = t := by
  cases fail with
  | true => rfl
  | false =>
    cases op with
    | set k v => simp [isReadOnly] at h
    | del k => simp [isReadOnly] at h
    | get k => rfl
    | contains k => rfl
    | keys => rfl
    | values => rfl
    | records => rfl

/-- Witness for claim C9 at the keys operation. -/
theorem claim_C9_witness :
    isReadOnly Op.keys = true ∧
    (runStmt Op.keys false ([("a", "x")] : Table)).2 = [("a", "x")] :=
  ⟨rfl, claim_C9_read_only_frame Op.keys false [("a", "x")] rfl⟩

/-- Claim C10: keys is the key projection of records, values is the value
projection of records, and the three enumerations have the same length. -/
theorem claim_C10_projections (t : Table) :
    keys t = (records t).map Prod.fst ∧
    values t = (records t).map Prod.snd ∧
    (keys t).length = (records t).length ∧
    (values t).length = (records t).length := by
  refine ⟨rfl, rfl, ?_, ?_⟩ <;> simp [keys, values, records]

end KVLite
